import Mathlib

/-!
Verification of the cold-clear move-generation and search-tree core.

This file shallowly embeds the data model and operations of the
repository (src/libtetris/src/piece.rs, src/libtetris/src/lock_data.rs,
src/libtetris/src/lib.rs, src/bot/src/moves.rs, src/bot/src/tree.rs)
and proves or refutes the specification claims about them.

The board mechanics provider (board.rs) and the evaluator
(bot/src/evaluation.rs) are not part of the provided sources; where an
operation of theirs is needed it is modelled from the specification's
contract and marked `Modelled from the spec` in its doc comment.
-/

namespace ColdClear

set_option maxRecDepth 4000

/-! ## Piece model (src/libtetris/src/piece.rs) -/

/-- The 7 tetromino kinds, in source declaration order I O T L J S Z. -/
inductive Piece where
  | I | O | T | L | J | S | Z
deriving DecidableEq, Repr

/-- Rotation states in source declaration order North South East West. -/
inductive RotationState where
  | North | South | East | West
deriving DecidableEq, Repr

/-- A piece kind together with its orientation (struct PieceState). -/
structure PieceState where
  piece : Piece
  rot : RotationState
deriving DecidableEq, Repr

/-- T-spin classification flag. -/
inductive TspinStatus where
  | None | Full
deriving DecidableEq, Repr

/-- A falling piece: pose (kind, x, y anchor) plus T-spin flag. -/
structure FallingPiece where
  kind : PieceState
  x : Int
  y : Int
  tspin : TspinStatus
deriving DecidableEq, Repr

/-- The per-kind base cell offsets (North orientation), from the CELLS table. -/
def baseCells : Piece → List (Int × Int)
  | .I => [(-1, 0), (0, 0), (1, 0), (2, 0)]
  | .O => [(0, 0), (1, 0), (0, 1), (1, 1)]
  | .T => [(-1, 0), (0, 0), (1, 0), (0, 1)]
  | .L => [(-1, 0), (0, 0), (1, 0), (1, 1)]
  | .J => [(-1, 0), (0, 0), (1, 0), (-1, 1)]
  | .S => [(-1, 0), (0, 0), (0, 1), (1, 1)]
  | .Z => [(-1, 1), (0, 1), (0, 0), (1, 0)]

/-- Orientation transform used by the gen_cells macro:
North (x,y), South (-x,-y), East (y,-x), West (-y,x). -/
def rotCell : RotationState → Int × Int → Int × Int
  | .North, (x, y) => (x, y)
  | .South, (x, y) => (-x, -y)
  | .East, (x, y) => (y, -x)
  | .West, (x, y) => (-y, x)

/-- The cells this piece kind and orientation occupy relative to the anchor. -/
def PieceState.cells (s : PieceState) : List (Int × Int) :=
  (baseCells s.piece).map (rotCell s.rot)

/-- Absolute cells of a falling piece. -/
def FallingPiece.cells (p : FallingPiece) : List (Int × Int) :=
  p.kind.cells.map (fun c => (c.1 + p.x, c.2 + p.y))

/-! ## Board (Modelled from the spec: board.rs is not under src).
The spec's mechanics contract (section 6) requires obstruction queries,
per-column heights, sonic drop, queue and hold bookkeeping.  The playfield
is modelled as 40 rows (bottom first) of 10 cells. -/

/-- Modelled from the spec: the board snapshot consumed by the core.
`grid` holds 40 rows bottom-up of 10 occupancy flags; `queue` is the
revealed next-piece queue, `hold` the hold slot, `bag` the residual set of
still-possible identities for the first unrevealed queue slot, and
`b2b`/`combo` the clear-streak state used by lock resolution. -/
structure Board where
  grid : List (List Bool)
  queue : List Piece
  hold : Option Piece
  bag : List Piece
  b2b : Bool
  combo : Option Nat
deriving DecidableEq, Repr

/-- Modelled from the spec: cell occupancy; out-of-range columns and
below-floor rows count as occupied, rows above the stored grid as empty. -/
def Board.occupied (b : Board) (x y : Int) : Bool :=
  x < 0 || 10 ≤ x || y < 0 || ((b.grid.getD y.toNat []).getD x.toNat false)

/-- Modelled from the spec: `obstructed(piece_pose) → bool`. -/
def Board.obstructed (b : Board) (p : FallingPiece) : Bool :=
  p.cells.any (fun c => b.occupied c.1 c.2)

/-- Modelled from the spec: the height of one column (one more than its
topmost occupied row, 0 if empty). -/
def Board.columnHeight (b : Board) (x : Nat) : Int :=
  (List.range 40).foldl
    (fun acc y => if (b.grid.getD y []).getD x false then (y : Int) + 1 else acc) 0

/-- Modelled from the spec: `column_heights() → per-column integer heights`. -/
def Board.column_heights (b : Board) : List Int :=
  (List.range 10).map (fun x => b.columnHeight x)

/-- The empty 10-wide playfield. -/
def emptyGrid : List (List Bool) :=
  List.replicate 40 (List.replicate 10 false)

/-! ## Piece movement (FallingPiece impl in piece.rs) -/

/-- FallingPiece::shift: move by (dx, dy); on obstruction restore and return
false, otherwise clear the T-spin flag and return true. -/
def FallingPiece.shift (p : FallingPiece) (b : Board) (dx dy : Int) :
    Bool × FallingPiece :=
  let q : FallingPiece := { p with x := p.x + dx, y := p.y + dy }
  if b.obstructed q then (false, p)
  else (true, { q with tspin := TspinStatus.None })

/-- The cell-by-cell falling loop of FallingPiece::sonic_drop for the
`drop_by < 0` (overhang) case.  Fuel bounds the descent; callers pass
enough fuel that exhaustion is unreachable for an unobstructed piece. -/
def dropLoop (b : Board) : Nat → FallingPiece → Bool → Bool × FallingPiece
  | 0, p, fell => (fell, p)
  | n + 1, p, fell =>
      let q : FallingPiece := { p with y := p.y - 1 }
      if b.obstructed q then (fell, p)
      else dropLoop b n { q with tspin := TspinStatus.None } true

/-- FallingPiece::sonic_drop: project the piece to its lowest legal
position using column heights, falling cell-by-cell when it is already
inside an overhang; returns whether it moved. -/
def FallingPiece.sonic_drop (p : FallingPiece) (b : Board) :
    Bool × FallingPiece :=
  let hs := b.column_heights
  let ds := p.cells.map (fun c => c.2 - hs.getD c.1.toNat 0)
  let drop_by := ds.foldl min (ds.headD 0)
  if 0 < drop_by then
    (true, { p with y := p.y - drop_by, tspin := TspinStatus.None })
  else if drop_by < 0 then
    dropLoop b (p.y.toNat + 4) p false
  else
    (false, p)

/-- The 22 candidate kick offsets for a clockwise rotation. -/
def kicksCw : List (Int × Int) :=
  [(0, 0), (-1, 0), (0, -1), (-1, -1), (0, -2), (-1, -2), (-2, 0), (-2, -1),
   (-2, -2), (1, 0), (1, -1), (0, 1), (-1, 1), (-2, 1), (1, -2), (2, 0),
   (0, 2), (-1, 2), (-2, 2), (2, -1), (2, -2), (1, 1)]

/-- The 22 candidate kick offsets for a counter-clockwise rotation. -/
def kicksCcw : List (Int × Int) :=
  [(0, 0), (1, 0), (0, -1), (1, -1), (0, -2), (1, -2), (2, 0), (2, -1),
   (2, -2), (-1, 0), (-1, -1), (0, 1), (1, 1), (2, 1), (-1, -2), (-2, 0),
   (0, 2), (1, 2), (2, 2), (-2, -1), (-2, -2), (-1, 1)]

/-- The 22 candidate kick offsets for a 180-degree rotation. -/
def kicksFlip : List (Int × Int) :=
  [(0, 0), (0, -1), (1, 0), (-1, 0), (0, -2), (-1, -1), (1, -1), (1, -2),
   (-1, -2), (2, 0), (-2, 0), (0, 1), (1, 1), (-1, 1), (2, -1), (-2, -1),
   (2, -2), (-2, -2), (2, 1), (-2, 1), (0, -3), (0, 2)]

/-- The candidate pose obtained by applying kick offset `k` to `initial`
with the rotated orientation `target` (kick offsets are relative to the
initial anchor; the T-spin flag is untouched at this point, as in the
source, and is overwritten on acceptance). -/
def kickPose (initial : FallingPiece) (target : PieceState) (k : Int × Int) :
    FallingPiece :=
  { kind := target, x := initial.x + k.1, y := initial.y + k.2,
    tspin := initial.tspin }

/-- Whether the accepted pose can be nudged in none of the four cardinal
directions (the immobility test deciding TspinStatus.Full in rotate). -/
def immobile (b : Board) (q : FallingPiece) : Bool :=
  !(q.shift b (-1) 0).1 && !(q.shift b 1 0).1 &&
  !(q.shift b 0 1).1 && !(q.shift b 0 (-1)).1

/-- The kick-testing loop of FallingPiece::rotate: try each offset in
order, accept the first unobstructed pose (setting the T-spin flag by the
immobility test), restore the initial piece and fail if all are obstructed. -/
def rotateAux (b : Board) (initial : FallingPiece) (target : PieceState) :
    List (Int × Int) → Bool × FallingPiece
  | [] => (false, initial)
  | k :: rest =>
      let q := kickPose initial target k
      if b.obstructed q then rotateAux b initial target rest
      else
        (true, { q with tspin := if immobile b q then TspinStatus.Full
                                 else TspinStatus.None })

/-- RotationState::cw. -/
def RotationState.cw : RotationState → RotationState
  | .North => .East
  | .East => .South
  | .South => .West
  | .West => .North

/-- RotationState::ccw. -/
def RotationState.ccw : RotationState → RotationState
  | .North => .West
  | .West => .South
  | .South => .East
  | .East => .North

/-- RotationState::flip. -/
def RotationState.flip : RotationState → RotationState
  | .North => .South
  | .East => .West
  | .South => .North
  | .West => .East

/-- FallingPiece::cw. -/
def FallingPiece.cw (p : FallingPiece) (b : Board) : Bool × FallingPiece :=
  rotateAux b p { p.kind with rot := p.kind.rot.cw } kicksCw

/-- FallingPiece::ccw. -/
def FallingPiece.ccw (p : FallingPiece) (b : Board) : Bool × FallingPiece :=
  rotateAux b p { p.kind with rot := p.kind.rot.ccw } kicksCcw

/-- FallingPiece::flip. -/
def FallingPiece.flip (p : FallingPiece) (b : Board) : Bool × FallingPiece :=
  rotateAux b p { p.kind with rot := p.kind.rot.flip } kicksFlip

/-- One atomic input action (enum PieceMovement). -/
inductive PieceMovement where
  | Left | Right | Cw | Ccw | Flip | SonicDrop
deriving DecidableEq, Repr

/-- PieceMovement::apply: apply the action mechanically, returning whether
it changed or validly resolved the piece, together with the new piece. -/
def PieceMovement.apply (m : PieceMovement) (p : FallingPiece) (b : Board) :
    Bool × FallingPiece :=
  match m with
  | .Left => p.shift b (-1) 0
  | .Right => p.shift b 1 0
  | .Ccw => p.ccw b
  | .Cw => p.cw b
  | .Flip => p.flip b
  | .SonicDrop => p.sonic_drop b

/-- Modelled from the spec: FallingPiece::spawn lives in board.rs, which
is not under src; the Row19Or20 spawn rule from piece.rs (SpawnRule) is
used, matching the spec's spawn pose at top-center of the 10-wide field. -/
def FallingPiece.spawn (piece : Piece) (b : Board) : Option FallingPiece :=
  let s : FallingPiece :=
    { kind := { piece := piece, rot := RotationState.North }, x := 4, y := 19,
      tspin := TspinStatus.None }
  if !b.obstructed s then some s
  else
    let s2 := { s with y := 20 }
    if !b.obstructed s2 then some s2 else none

/-! ## Lock results (src/libtetris/src/lock_data.rs) -/

/-- Placement kinds (enum PlacementKind). -/
inductive PlacementKind where
  | None | Clear1 | Clear2 | Clear3 | Clear4
  | Tspin | Tspin1 | Tspin2 | Tspin3 | Tspin4
deriving DecidableEq, Repr

/-- PlacementKind::get: classify by (cleared line count, T-spin flag). -/
def PlacementKind.get (cleared : Nat) (tspin : TspinStatus) : PlacementKind :=
  match cleared, tspin with
  | 0, TspinStatus.None => .None
  | 0, _ => .Tspin
  | 1, TspinStatus.None => .Clear1
  | 1, _ => .Tspin1
  | 2, TspinStatus.None => .Clear2
  | 2, _ => .Tspin2
  | 3, TspinStatus.None => .Clear3
  | 3, _ => .Tspin3
  | 4, TspinStatus.None => .Clear4
  | 4, _ => .Tspin4
  | _, _ => .None

/-- PlacementKind::garbage: the garbage this clear kind normally sends. -/
def PlacementKind.garbage : PlacementKind → Nat
  | .None | .Tspin | .Clear1 => 0
  | .Clear2 => 1
  | .Clear3 | .Tspin1 => 2
  | .Clear4 | .Tspin2 => 4
  | .Tspin3 => 6
  | .Tspin4 => 8

/-- PlacementKind::is_clear: whether this placement cleared lines. -/
def PlacementKind.is_clear : PlacementKind → Bool
  | .None | .Tspin => false
  | _ => true

/-- PlacementKind::is_hard: whether this placement does back-to-backs. -/
def PlacementKind.is_hard : PlacementKind → Bool
  | .Clear4 | .Tspin | .Tspin1 | .Tspin2 | .Tspin3 | .Tspin4 => true
  | _ => false

/-- The outcome of committing a placement (struct LockResult).  The
`locked_out` flag is required by tree.rs but absent from the provided
lock_data.rs; it is modelled from the spec ("a Lock Result marking an
unplayable top-out"). -/
structure LockResult where
  placement_kind : PlacementKind
  locked_out : Bool
  b2b : Bool
  perfect_clear : Bool
  combo : Option Nat
  garbage_sent : Nat
  cleared_lines : List Int
deriving DecidableEq, Repr

/-! ## Controller wire format (src/libtetris/src/lib.rs) -/

/-- The bit-packed control state (struct Controller). -/
structure Controller where
  left : Bool
  right : Bool
  rotate_right : Bool
  rotate_left : Bool
  rotate_180 : Bool
  meme_flip : Bool
  soft_drop : Bool
  hard_drop : Bool
  hold : Bool
deriving DecidableEq, Repr

/-- Controller serialization: each button occupies its own bit of a u16. -/
def Controller.serialize (c : Controller) : Nat :=
  (cond c.left 1 0) <<< 0 |||
  (cond c.right 1 0) <<< 1 |||
  (cond c.rotate_left 1 0) <<< 2 |||
  (cond c.rotate_right 1 0) <<< 3 |||
  (cond c.rotate_180 1 0) <<< 4 |||
  (cond c.hold 1 0) <<< 5 |||
  (cond c.soft_drop 1 0) <<< 6 |||
  (cond c.hard_drop 1 0) <<< 7 |||
  (cond c.meme_flip 1 0) <<< 8

/-- Controller deserialization: read each button from its bit position. -/
def Controller.deserialize (v : Nat) : Controller :=
  { left := (v >>> 0) &&& 1 != 0
    right := (v >>> 1) &&& 1 != 0
    rotate_left := (v >>> 2) &&& 1 != 0
    rotate_right := (v >>> 3) &&& 1 != 0
    rotate_180 := (v >>> 4) &&& 1 != 0
    hold := (v >>> 5) &&& 1 != 0
    soft_drop := (v >>> 6) &&& 1 != 0
    hard_drop := (v >>> 7) &&& 1 != 0
    meme_flip := (v >>> 8) &&& 1 != 0 }

/-! ## Move generation (src/bot/src/moves.rs) -/

/-- A bounded input sequence with its elapsed-time counter.  The source
uses an ArrayVec with capacity 32; the capacity is enforced at each use
site, as there. -/
structure InputList where
  movements : List PieceMovement
  time : Nat
deriving DecidableEq, Repr

/-- An input list together with the falling-piece state it results in. -/
structure Placement where
  inputs : InputList
  location : FallingPiece
deriving DecidableEq, Repr

/-- Movement modes (enum MovementMode). -/
inductive MovementMode where
  | ZeroG | ZeroGComplete | TwentyG | HardDropOnly
deriving DecidableEq, Repr

/-- Modelled from the spec: board.rs's above_stack test used by the (dead,
since fast_mode is constantly false) fast-mode branch of attempt: every
cell of the piece is at or above its column's height. -/
def Board.above_stack (b : Board) (p : FallingPiece) : Bool :=
  p.cells.all (fun c => b.column_heights.getD c.1.toNat 0 ≤ c.2)

/-- The DAS sliding loop of attempt: while the input list is not full and
the shift still applies, push the input again and charge 2 ticks.  Fuel is
the remaining list capacity, so fuel 0 is exactly the is_full case. -/
def repeatLoop (b : Board) (input : PieceMovement) :
    Nat → FallingPiece → List PieceMovement → Nat →
    FallingPiece × List PieceMovement × Nat
  | 0, p, ms, t => (p, ms, t)
  | fuel + 1, p, ms, t =>
      match input.apply p b with
      | (false, _) => (p, ms, t)
      | (true, p2) => repeatLoop b input fuel p2 (ms ++ [input]) (t + 2)

/-- The twenty-gravity forced drop, visited-set insertion and enqueueing
tail of attempt, acting on the post-DAS piece, movement list and time. -/
def attemptPush (b : Board) (mode : MovementMode) (input : PieceMovement)
    (checked : List FallingPiece) (check_queue : List Placement)
    (p2 : FallingPiece) (ms2 : List PieceMovement) (t3 : Nat) :
    List FallingPiece × List Placement :=
  let d := if mode = MovementMode.TwentyG then p2.sonic_drop b
           else (false, p2)
  let drop_input := d.1
  let p3 := d.2
  if p3 ∈ checked then (checked, check_queue)
  else
    let ms3 := if drop_input ∧ ms2.length < 32
               then ms2 ++ [PieceMovement.SonicDrop] else ms2
    let cq :=
      if ¬(mode = MovementMode.HardDropOnly ∧
           input = PieceMovement.SonicDrop)
      then check_queue ++
           [{ inputs := { movements := ms3, time := t3 },
              location := p3 }]
      else check_queue
    (checked ++ [p3], cq)

/-- moves.rs attempt: try one input action from a frontier state, charge
its time, optionally DAS-repeat it, apply the twenty-gravity forced drop,
and enqueue the resulting state if it was never seen before.  Returns the
updated (checked, check_queue). -/
def attempt (b : Board) (moves : InputList) (piece : FallingPiece)
    (checked : List FallingPiece) (check_queue : List Placement)
    (mode : MovementMode) (fast_mode : Bool)
    (input : PieceMovement) (rep : Bool) :
    List FallingPiece × List Placement :=
  let orig_y := piece.y
  match input.apply piece b with
  | (false, _) => (checked, check_queue)
  | (true, p1) =>
      let t1 := if input = PieceMovement.SonicDrop
                then moves.time + 2 * (orig_y - p1.y).toNat
                else moves.time + 1
      let t2 := if moves.movements.getLast? = some input then t1 + 1 else t1
      let ms1 := moves.movements ++ [input]
      let r := if rep then repeatLoop b input (32 - ms1.length) p1 ms1 t2
               else (p1, ms1, t2)
      if fast_mode = false ∨ r.1.tspin ≠ TspinStatus.None ∨
         b.above_stack r.1 = false then
        attemptPush b mode input checked check_queue r.1 r.2.1 r.2.2
      else (checked, check_queue)

/-- Stable insertion (descending by (time, length)) implementing the
queue sort of find_moves's next: a new element is placed after every
element whose key is at least its own, so elements with equal keys keep
their insertion order, exactly as Rust's stable sort_by with the reversed
comparator. -/
def insertDesc (p : Placement) : List Placement → List Placement
  | [] => [p]
  | q :: rest =>
      if q.inputs.time < p.inputs.time ∨
         (q.inputs.time = p.inputs.time ∧
          q.inputs.movements.length < p.inputs.movements.length)
      then p :: q :: rest
      else q :: insertDesc p rest

/-- The stable descending sort used by next. -/
def sortDesc (l : List Placement) : List Placement :=
  l.foldl (fun acc p => insertDesc p acc) []

/-- moves.rs next: sort the queue by (time, input count) descending and
pop the last element, i.e. the cheapest frontier state (the latest-pushed
one among ties, as popping a descending stable sort does). -/
def next (q : List Placement) : Option (Placement × List Placement) :=
  let s := sortDesc q
  match s.getLast? with
  | none => none
  | some p => some (p, s.dropLast)

/-- Ascending lexicographic insertion for the 4-cell footprint sort in
lock_check (Rust's slice sort on (i32, i32) tuples). -/
def insertCellAsc (c : Int × Int) : List (Int × Int) → List (Int × Int)
  | [] => [c]
  | d :: rest =>
      if c.1 < d.1 ∨ (c.1 = d.1 ∧ c.2 < d.2) then c :: d :: rest
      else d :: insertCellAsc c rest

/-- Sort a cell list ascending (the `cells.sort()` of lock_check). -/
def sortCells (l : List (Int × Int)) : List (Int × Int) :=
  l.foldl (fun acc c => insertCellAsc c acc) []

/-- The deduplication key of the lock-location map: sorted absolute cells
plus the T-spin flag. -/
abbrev LockKey := List (Int × Int) × TspinStatus

/-- Association-list lookup for the lock map. -/
def locksFind (key : LockKey) : List (LockKey × Placement) → Option Placement
  | [] => none
  | e :: rest => if e.1 = key then some e.2 else locksFind key rest

/-- moves.rs lock_check: discard a rest state whose cells all lie at row
23 or above; otherwise record it under its (sorted cells, tspin) key
unless an entry for that key already exists (or_insert). -/
def lock_check (piece : FallingPiece) (locks : List (LockKey × Placement))
    (moves : InputList) : List (LockKey × Placement) :=
  if piece.cells.all (fun c => 23 ≤ c.2) then locks
  else
    let key : LockKey := (sortCells piece.cells, piece.tspin)
    match locksFind key locks with
    | some _ => locks
    | none => locks ++ [(key, { inputs := moves, location := piece })]

/-- The main loop of find_moves: pop the cheapest frontier state, attempt
every input action from it (DAS variants only in zero-gravity mode), then
sonic-drop it and lock-check the rest state.  Fuel bounds the number of
loop iterations. -/
def findMovesLoop (b : Board) (mode : MovementMode) :
    Nat → List Placement → List FallingPiece → List (LockKey × Placement) →
    List (LockKey × Placement)
  | 0, _, _, locks => locks
  | fuel + 1, check_queue, checked, locks =>
      match next check_queue with
      | none => locks
      | some (placement, rest) =>
          let moves := placement.inputs
          let position := placement.location
          let s :=
            if moves.movements.length < 32 then
              let s := attempt b moves position checked rest mode false
                PieceMovement.Left false
              let s := attempt b moves position s.1 s.2 mode false
                PieceMovement.Right false
              let s := attempt b moves position s.1 s.2 mode false
                PieceMovement.Cw false
              let s := attempt b moves position s.1 s.2 mode false
                PieceMovement.Ccw false
              let s := attempt b moves position s.1 s.2 mode false
                PieceMovement.Flip false
              let s :=
                if mode = MovementMode.ZeroG then
                  let s := attempt b moves position s.1 s.2 mode false
                    PieceMovement.Left true
                  attempt b moves position s.1 s.2 mode false
                    PieceMovement.Right true
                else s
              attempt b moves position s.1 s.2 mode false
                PieceMovement.SonicDrop false
            else (checked, rest)
          let dropped := (position.sonic_drop b).2
          findMovesLoop b mode fuel s.2 s.1 (lock_check dropped locks moves)

/-- find_moves, exposing the lock-location deduplication map itself
(the source returns the map's values; see find_moves below). -/
def findMovesMap (fuel : Nat) (b : Board) (spawned : FallingPiece)
    (mode : MovementMode) : List (LockKey × Placement) :=
  let start :=
    if mode = MovementMode.TwentyG then
      { inputs := { movements := [PieceMovement.SonicDrop], time := 0 },
        location := (spawned.sonic_drop b).2 : Placement }
    else
      { inputs := { movements := [], time := 0 }, location := spawned }
  findMovesLoop b mode fuel [start] [start.location] []

/-- moves.rs find_moves: every distinct reachable lock placement, one per
(sorted cells, tspin) key. -/
def find_moves (fuel : Nat) (b : Board) (spawned : FallingPiece)
    (mode : MovementMode) : List Placement :=
  (findMovesMap fuel b spawned mode).map (fun e => e.2)

/-- The spec's timing model for an arbitrary ("discoverable") input
sequence: apply each action in turn (every action must mechanically
succeed), charging a sonic drop 2 ticks per cell actually fallen and any
other action 1 tick plus 1 extra tick when it repeats the immediately
preceding action.  Returns the resulting piece and elapsed time. -/
def seqSimulate (b : Board) :
    FallingPiece → Option PieceMovement → Nat → List PieceMovement →
    Option (FallingPiece × Nat)
  | p, _, t, [] => some (p, t)
  | p, last, t, m :: rest =>
      match m.apply p b with
      | (false, _) => none
      | (true, p2) =>
          let w := if m = PieceMovement.SonicDrop then 2 * (p.y - p2.y).toNat
                   else 1 + (if last = some m then 1 else 0)
          seqSimulate b p2 (some m) (t + w) rest

/-- The lock-location key an input sequence reaches from a spawn state:
run the sequence, sonic-drop the result to rest, and read off the
(sorted cells, tspin) key, with the elapsed time and sequence length. -/
def seqReach (b : Board) (spawned : FallingPiece)
    (s : List PieceMovement) : Option (LockKey × Nat × Nat) :=
  match seqSimulate b spawned none 0 s with
  | none => none
  | some (p, t) =>
      let dropped := (p.sonic_drop b).2
      some ((sortCells dropped.cells, dropped.tspin), t, s.length)

/-! ## Evaluations (Modelled from the spec: bot/src/evaluation.rs is not
under src; the spec describes a two-axis score with componentwise max,
averaging and a scalar ranking projection). -/

/-- Modelled from the spec: the propagated two-axis score; tree.rs
constructs Eval with named fields aggressive and defensive. -/
structure Eval where
  aggressive : Int
  defensive : Int
deriving DecidableEq, Repr

/-- Modelled from the spec: the raw evaluation produced by the evaluator,
the same two-axis pair (tree.rs converts it into Eval with `into`). -/
abbrev Evaluation := Eval

/-- Componentwise sum of evaluations. -/
def Eval.add (a v : Eval) : Eval :=
  { aggressive := a.aggressive + v.aggressive,
    defensive := a.defensive + v.defensive }

/-- Scale each axis (Rust integer multiplication). -/
def Eval.mulInt (e : Eval) (k : Int) : Eval :=
  { aggressive := e.aggressive * k, defensive := e.defensive * k }

/-- Divide each axis with Rust's truncating integer division. -/
def Eval.divInt (e : Eval) (k : Int) : Eval :=
  { aggressive := e.aggressive.tdiv k, defensive := e.defensive.tdiv k }

/-- Modelled from the spec: the search configuration exposed by the
evaluator; gamma is the discount ratio (numerator, denominator). -/
structure SearchOptions where
  gamma : Int × Int
deriving DecidableEq, Repr

/-- Modelled from the spec: the bot options consumed by tree.rs
(movement mode, hold usage, speculation switch). -/
structure Options where
  mode : MovementMode
  use_hold : Bool
  spec_enabled : Bool
deriving DecidableEq, Repr

/-- Modelled from the spec: the pluggable evaluator: a raw evaluation of
(lock result, board, move time, piece), the search options, and the
scalar ranking projection Eval::value(height signal, options). -/
structure Evaluator where
  evaluate : LockResult → Board → Nat → Piece → Evaluation
  search_options : SearchOptions
  value : Eval → Int → SearchOptions → Int

/-! ## Search tree (src/bot/src/tree.rs) -/

mutual
/-- tree.rs Tree: board snapshot, raw and propagated evaluations, depth,
live descendant count, and the optional expansion state (None is the
Unexpanded state). -/
inductive Tree where
  | mk : Board → Evaluation → Eval → Nat → Nat → Option TreeKind → Tree

/-- tree.rs TreeKind: Known child list, or the per-identity speculation
map (EnumMap of Piece to Option (Vec Child), modelled as a function). -/
inductive TreeKind where
  | known : List Child → TreeKind
  | unknown : (Piece → Option (List Child)) → TreeKind

/-- tree.rs Child: hold flag, placement taken, lock result, owned subtree. -/
inductive Child where
  | mk : Bool → Placement → LockResult → Tree → Child
end

def Tree.board : Tree → Board
  | .mk b _ _ _ _ _ => b

def Tree.raw_eval : Tree → Evaluation
  | .mk _ r _ _ _ _ => r

def Tree.evaluation : Tree → Eval
  | .mk _ _ e _ _ _ => e

def Tree.depth : Tree → Nat
  | .mk _ _ _ d _ _ => d

def Tree.child_nodes : Tree → Nat
  | .mk _ _ _ _ c _ => c

def Tree.kind : Tree → Option TreeKind
  | .mk _ _ _ _ _ k => k

def Child.hold : Child → Bool
  | .mk h _ _ _ => h

def Child.mv : Child → Placement
  | .mk _ m _ _ => m

def Child.lock : Child → LockResult
  | .mk _ _ l _ => l

def Child.tree : Child → Tree
  | .mk _ _ _ t => t

/-- EnumMap iteration order over piece identities (source enum order). -/
def piece_list : List Piece :=
  [Piece.I, Piece.O, Piece.T, Piece.L, Piece.J, Piece.S, Piece.Z]

/-- tree.rs best_eval: the componentwise maximum of the children's
evaluations, None for an empty list. -/
def best_eval : List Child → Option Eval
  | [] => none
  | c :: rest =>
      some (rest.foldl
        (fun acc ch =>
          { aggressive := max acc.aggressive ch.tree.evaluation.aggressive,
            defensive := max acc.defensive ch.tree.evaluation.defensive })
        c.tree.evaluation)

/-- One step of the accumulation loop of TreeKind::evaluation over the
speculation map: a live identity adds its best evaluation to the running
sum and count, a dead identity (empty child list) counts a death, an
unspeculated identity is skipped (the filter_map of the source). -/
def specStep (speculation : Piece → Option (List Child))
    (acc : Eval × Int × Int) (p : Piece) : Eval × Int × Int :=
  match speculation p with
  | none => acc
  | some children =>
      match best_eval children with
      | some v => (acc.1.add v, acc.2.1 + 1, acc.2.2)
      | none => (acc.1, acc.2.1, acc.2.2 + 1)

/-- TreeKind::evaluation: a Known node aggregates by best_eval; a
speculative node averages the live identities' best evaluations and folds
each dead identity in as (average − 1000) per axis before re-averaging.
The integer-division-by-zero and unwrap panics of the source are
modelled as none. -/
def TreeKind.evaluation : TreeKind → Option Eval
  | .known children => best_eval children
  | .unknown speculation =>
      let acc := piece_list.foldl (specStep speculation)
        ({ aggressive := 0, defensive := 0 }, 0, 0)
      let sum := acc.1
      let n := acc.2.1
      let deaths := acc.2.2
      if n = 0 then none
      else
        let avg := sum.divInt n
        let sum2 : Eval :=
          { aggressive := sum.aggressive + (avg.aggressive - 1000) * deaths,
            defensive := sum.defensive + (avg.defensive - 1000) * deaths }
        some (sum2.divInt (n + deaths))

/-- TreeKind::into_best_child: a non-empty Known list yields its first
child; everything else is returned unchanged as the error. -/
def TreeKind.into_best_child : TreeKind → Except TreeKind Child
  | .known [] => .error (.known [])
  | .known (c :: _) => .ok c
  | .unknown s => .error (.unknown s)

/-- Tree::into_best_child: succeeds only when the expansion state does,
restoring the root with its state unchanged otherwise. -/
def Tree.into_best_child (t : Tree) : Except Tree Child :=
  match t.kind with
  | none => .error t
  | some tk =>
      match tk.into_best_child with
      | .ok c => .ok c
      | .error tk2 =>
          .error (Tree.mk t.board t.raw_eval t.evaluation t.depth
                    t.child_nodes (some tk2))

/-! ## Board queue, hold and lock operations
(Modelled from the spec: board.rs is not under src; section 6 of the spec
gives the queue contract and lock_piece). -/

/-- Modelled from the spec: pop the front of the revealed queue. -/
def Board.advance_queue (b : Board) : Option (Piece × Board) :=
  match b.queue with
  | [] => none
  | p :: rest => some (p, { b with queue := rest })

/-- Modelled from the spec: the next piece if revealed, otherwise the
residual set of still-possible identities. -/
def Board.get_next_piece (b : Board) : Except (List Piece) Piece :=
  match b.queue with
  | p :: _ => .ok p
  | [] => .error b.bag

/-- Modelled from the spec: the piece after the next one, if revealed. -/
def Board.get_next_next_piece (b : Board) : Option Piece :=
  (b.queue.drop 1).head?

/-- Modelled from the spec: the current hold slot. -/
def Board.hold_piece (b : Board) : Option Piece :=
  b.hold

/-- Modelled from the spec: swap the hold slot with the given piece,
returning the previously held piece. -/
def Board.swap_hold (b : Board) (p : Piece) : Option Piece × Board :=
  (b.hold, { b with hold := some p })

/-- Modelled from the spec: reveal one more piece at the back of the queue. -/
def Board.add_next_piece (b : Board) (p : Piece) : Board :=
  { b with queue := b.queue ++ [p] }

/-- Write one occupied cell into the grid. -/
def setCell (grid : List (List Bool)) (c : Int × Int) : List (List Bool) :=
  grid.set c.2.toNat ((grid.getD c.2.toNat []).set c.1.toNat true)

/-- The COMBO_GARBAGE table from lock_data.rs. -/
def combo_garbage : List Nat :=
  [0, 0, 1, 1, 2, 2, 3, 3, 4, 4, 4, 5]

/-- Modelled from the spec: lock_piece commits the placement: fill the
piece's cells, clear full rows, and derive the LockResult
deterministically from (cells cleared, T-spin flag, prior streak state):
the placement kind via PlacementKind::get, back-to-back and combo
bookkeeping, garbage from the kind plus combo table plus b2b bonus,
perfect_clear when the field empties, and locked_out marking an
unplayable top-out (the piece locked entirely above the visible rows). -/
def Board.lock_piece (b : Board) (p : FallingPiece) : Board × LockResult :=
  let grid1 := p.cells.foldl setCell b.grid
  let cleared := (List.range 40).filter
    (fun y => (grid1.getD y []).all (fun c => c))
  let kept := (List.range 40).filterMap
    (fun y => if y ∈ cleared then none else some (grid1.getD y []))
  let grid2 := kept ++ List.replicate cleared.length (List.replicate 10 false)
  let kind := PlacementKind.get cleared.length p.tspin
  let did_b2b := kind.is_clear && kind.is_hard && b.b2b
  let combo2 := if kind.is_clear then
      some (match b.combo with
            | none => 0
            | some c => c + 1)
    else none
  let garbage := kind.garbage + (if did_b2b then 1 else 0) +
    (match combo2 with
     | some c => combo_garbage.getD (min c 11) 0
     | none => 0)
  let locked_out := p.cells.all (fun c => 20 ≤ c.2)
  let result : LockResult :=
    { placement_kind := kind, locked_out := locked_out, b2b := did_b2b,
      perfect_clear := grid2.all (fun row => row.all (fun c => !c)),
      combo := combo2, garbage_sent := garbage,
      cleared_lines := cleared.map (fun y => (y : Int)) }
  let b2 : Board :=
    { b with grid := grid2,
             b2b := if kind.is_clear then kind.is_hard else b.b2b,
             combo := combo2 }
  (b2, result)

/-- Tree::new: score the resulting board immediately; the propagated
evaluation starts as the raw evaluation; state is Unexpanded. -/
def Tree.new (board : Board) (lock : LockResult) (move_time : Nat)
    (piece : Piece) (ev : Evaluator) : Tree :=
  let raw := ev.evaluate lock board move_time piece
  Tree.mk board raw raw 0 0 none

/-- Tree::starting_board: default evaluations, Unexpanded. -/
def Tree.starting_board (board : Board) : Tree :=
  Tree.mk board { aggressive := 0, defensive := 0 }
    { aggressive := 0, defensive := 0 } 0 0 none

/-- The child-building loop shared by both passes of new_children: each
generated placement is locked on a clone of the board and becomes a Child
unless the lock result is a lock-out, in which case it is skipped. -/
def placementsToChildren (board : Board) (ev : Evaluator) (next : Piece)
    (useHold : Bool) (moves : List Placement) : List Child :=
  moves.foldl
    (fun acc mv =>
      let r := board.lock_piece mv.location
      if r.2.locked_out then acc
      else acc ++ [Child.mk useHold mv r.2
        (Tree.new r.1 r.2 mv.inputs.time next ev)])
    []

/-- tree.rs new_children: advance the queue, spawn the piece, turn every
generated placement whose lock result is not a lock-out into a Child, and
if hold is enabled and changes the active piece, do the same for the held
piece.  Queue-underflow panics of the source are modelled as none.  The
find-moves fuel is threaded explicitly. -/
def new_children (fuel : Nat) (board : Board) (opts : Options)
    (ev : Evaluator) : Option (List Child) :=
  match board.advance_queue with
  | none => none
  | some (next, board) =>
      match FallingPiece.spawn next board with
      | none => some []
      | some spawned =>
          let children := placementsToChildren board ev next false
            (find_moves fuel board spawned opts.mode)
          if opts.use_hold then
            let hr := board.swap_hold next
            let hb :=
              match hr.1 with
              | some h => some (h, hr.2)
              | none => hr.2.advance_queue
            match hb with
            | none => none
            | some (hold, hboard) =>
                if hold = next then some children
                else
                  match FallingPiece.spawn hold hboard with
                  | none => some children
                  | some sp2 =>
                      some (children ++ placementsToChildren hboard ev hold
                        true (find_moves fuel hboard sp2 opts.mode))
          else some children

/-- The result of one expansion step (struct ExpandResult). -/
structure ExpandResult where
  depth : Nat
  new_nodes : Nat
  is_death : Bool
deriving DecidableEq, Repr

mutual
/-- Tree::add_next_piece: reveal the piece on this node's board, forward
the revelation into the expansion state, and on survival recompute the
propagated evaluation from the new aggregate.  Fuel bounds the recursion
depth; unwrap panics of the source are modelled as none.  Returns the
updated tree and the is_death flag. -/
def Tree.add_next_piece : Nat → Tree → Piece → SearchOptions →
    Option (Tree × Bool)
  | 0, _, _, _ => none
  | fuel + 1, t, piece, opts =>
      let b2 := t.board.add_next_piece piece
      match t.kind with
      | none =>
          some (Tree.mk b2 t.raw_eval t.evaluation t.depth t.child_nodes none,
                false)
      | some k =>
          match TreeKind.add_next_piece fuel k piece opts with
          | none => none
          | some (k2, true) =>
              some (Tree.mk b2 t.raw_eval t.evaluation t.depth t.child_nodes
                      (some k2), true)
          | some (k2, false) =>
              match k2.evaluation with
              | none => none
              | some e =>
                  let ne := ((e.mulInt opts.gamma.fst).divInt
                    opts.gamma.snd).add t.raw_eval
                  some (Tree.mk b2 t.raw_eval ne t.depth t.child_nodes
                          (some k2), false)
  termination_by fuel t piece opts => (fuel, 0, 0)

/-- TreeKind::add_next_piece: a Known node forwards the revelation into
every child, dropping the ones that report death, and is dead when the
list empties; a speculative node replaces itself with the Known node over
exactly the chosen identity's precomputed list (the unwrap on an
unspeculated identity is modelled as none), reporting death if and only
if that list is empty. -/
def TreeKind.add_next_piece : Nat → TreeKind → Piece → SearchOptions →
    Option (TreeKind × Bool)
  | 0, _, _, _ => none
  | fuel + 1, .known children, piece, opts =>
      match childrenRetain fuel children piece opts with
      | none => none
      | some kept => some (.known kept, kept.isEmpty)
  | _ + 1, .unknown speculation, piece, _ =>
      match speculation piece with
      | none => none
      | some now_known => some (.known now_known, now_known.isEmpty)
  termination_by fuel k piece opts => (fuel, 1, 0)

/-- The retain_mut pass of the Known case of TreeKind::add_next_piece. -/
def childrenRetain : Nat → List Child → Piece → SearchOptions →
    Option (List Child)
  | _, [], _, _ => some []
  | fuel, c :: rest, piece, opts =>
      match Tree.add_next_piece fuel c.tree piece opts with
      | none => none
      | some (t2, dead) =>
          match childrenRetain fuel rest piece opts with
          | none => none
          | some kept =>
              if dead then some kept
              else some (Child.mk c.hold c.mv c.lock t2 :: kept)
  termination_by fuel cs piece opts => (fuel, 2, cs.length)
end

/-- The board-height signal used for child ranking: the truncated mean of
the column heights. -/
def heightSignal (b : Board) : Int :=
  (b.column_heights.foldl (fun a h => a + h) 0).tdiv 10

/-- The ranking key of TreeKind::expand's sort_by_key: the negated scalar
projection of the child's evaluation at its board's height signal. -/
def childSortKey (ev : Evaluator) (c : Child) : Int :=
  -(ev.value c.tree.evaluation (heightSignal c.tree.board) ev.search_options)

/-- Stable ascending insertion by the ranking key (Rust's stable
sort_by_key): an element is placed after every element whose key is at
most its own. -/
def insertChildAsc (ev : Evaluator) (c : Child) : List Child → List Child
  | [] => [c]
  | d :: rest =>
      if childSortKey ev c < childSortKey ev d then c :: d :: rest
      else d :: insertChildAsc ev c rest

/-- The stable sort of one child list by ranking key. -/
def sortChildrenByKey (ev : Evaluator) (children : List Child) : List Child :=
  children.foldl (fun acc c => insertChildAsc ev c acc) []

/-- An arbitrary child used only as the (unreachable) default of the
in-bounds indexing in expandSelect. -/
def dummyChild : Child :=
  let pose : FallingPiece :=
    { kind := { piece := Piece.I, rot := RotationState.North },
      x := 0, y := 0, tspin := TspinStatus.None }
  let lock : LockResult :=
    { placement_kind := PlacementKind.None, locked_out := false,
      b2b := false, perfect_clear := false, combo := none,
      garbage_sent := 0, cleared_lines := [] }
  let board : Board :=
    { grid := [], queue := [], hold := none, bag := [],
      b2b := false, combo := none }
  let pl : Placement :=
    { inputs := { movements := [], time := 0 }, location := pose }
  Child.mk false pl lock (Tree.starting_board board)

mutual
/-- The shared body of TreeKind::expand acting on one child list: the
empty-list death check, the stable sort by ranking key, selection of one
child, recursion into it, and its in-place replacement (or removal on
death).  The source samples the child from a weighted distribution whose
weights `(score − min)² / (rank + 1) + 1` are all positive, so every
index is reachable; the random draw is modelled by an explicit oracle
(the head of the rng stream, reduced mod the list length) so that results
are quantified over every possible draw.  Returns the updated list, the
raw recursion result, and the remaining oracle stream. -/
def expandSelect : Nat → List Nat → List Child → Options → Evaluator →
    Option (List Child × ExpandResult × List Nat)
  | fuel, rng, children, opts, ev =>
      if children.isEmpty then
        some (children, { depth := 0, new_nodes := 0, is_death := true }, rng)
      else
        let sorted := sortChildrenByKey ev children
        let idx := (rng.headD 0) % sorted.length
        let rng2 := rng.tail
        let c := sorted.getD idx dummyChild
        match Tree.expand fuel rng2 c.tree opts ev with
        | none => none
        | some (t2, result, rng3) =>
            if result.is_death then
              some (sorted.eraseIdx idx, result, rng3)
            else
              some (sorted.set idx (Child.mk c.hold c.mv c.lock t2),
                    result, rng3)
  termination_by fuel rng cs opts ev => (fuel, 1, 0)

/-- TreeKind::expand: a Known node expands within its own child list; a
speculative node first chooses (by oracle) among identities with a
non-empty list (the unwrap when none exists is modelled as none), then
expands within that identity's list; afterwards death is reported when
the Known list emptied, or when every speculated list is empty. -/
def TreeKind.expand : Nat → List Nat → TreeKind → Options → Evaluator →
    Option (TreeKind × ExpandResult × List Nat)
  | fuel, rng, .known children, opts, ev =>
      match expandSelect fuel rng children opts ev with
      | none => none
      | some (children2, result, rng2) =>
          if result.is_death then
            some (.known children2,
              { depth := result.depth + 1, new_nodes := result.new_nodes,
                is_death := children2.isEmpty }, rng2)
          else
            some (.known children2,
              { depth := result.depth + 1, new_nodes := result.new_nodes,
                is_death := false }, rng2)
  | fuel, rng, .unknown speculation, opts, ev =>
      let pieces := piece_list.filter
        (fun p => match speculation p with
                  | some cs => !cs.isEmpty
                  | none => false)
      if pieces.isEmpty then none
      else
        let p := pieces.getD ((rng.headD 0) % pieces.length) Piece.I
        let rng1 := rng.tail
        match speculation p with
        | none => none
        | some children =>
            match expandSelect fuel rng1 children opts ev with
            | none => none
            | some (children2, result, rng2) =>
                let spec2 : Piece → Option (List Child) :=
                  fun q => if q = p then some children2 else speculation q
                if result.is_death then
                  some (.unknown spec2,
                    { depth := result.depth + 1,
                      new_nodes := result.new_nodes,
                      is_death := piece_list.all
                        (fun q => match spec2 q with
                                  | some cs => cs.isEmpty
                                  | none => true) }, rng2)
                else
                  some (.unknown spec2,
                    { depth := result.depth + 1,
                      new_nodes := result.new_nodes,
                      is_death := false }, rng2)
  termination_by fuel rng k opts ev => (fuel, 2, 0)

/-- Tree::speculate: fan out one child list per still-possible identity
of the unrevealed next piece.  Disabled speculation defers progress with
a non-death, non-expanding result.  The possibility set is iterated in
enum order, as EnumSet iteration does. -/
def Tree.speculate : Nat → List Nat → Tree → Options → Evaluator →
    Option (Tree × ExpandResult × List Nat)
  | fuel, rng, t, opts, ev =>
      if opts.spec_enabled = false then
        some (t, { depth := 0, new_nodes := 0, is_death := false }, rng)
      else
        let poss :=
          match t.board.get_next_piece with
          | .ok _ =>
              match t.board.advance_queue with
              | none => none
              | some (_, b2) =>
                  match b2.get_next_piece with
                  | .error ps => some ps
                  | .ok _ => none
          | .error ps => some ps
        match poss with
        | none => none
        | some ps =>
            let step := (piece_list.filter (fun p => p ∈ ps)).foldl
              (fun acc p =>
                match acc with
                | none => none
                | some (spec, cnt) =>
                    match new_children fuel (t.board.add_next_piece p) opts
                        ev with
                    | none => none
                    | some children =>
                        some ((fun q => if q = p then some children
                               else spec q),
                              cnt + children.length))
              (some ((fun _ => none : Piece → Option (List Child)), 0))
            match step with
            | none => none
            | some (spec, cnt) =>
                let total := t.child_nodes + cnt
                if total = 0 then
                  some (Tree.mk t.board t.raw_eval t.evaluation t.depth
                          total t.kind,
                        { depth := 0, new_nodes := 0, is_death := true },
                        rng)
                else
                  let tk := TreeKind.unknown spec
                  match tk.evaluation with
                  | none => none
                  | some e =>
                      let so := ev.search_options
                      let ne := ((e.mulInt so.gamma.fst).divInt
                        so.gamma.snd).add t.raw_eval
                      some (Tree.mk t.board t.raw_eval ne 1 total (some tk),
                            { depth := 1, new_nodes := total,
                              is_death := false }, rng)

/-- Tree::expand: one iteration of the anytime search.  An expanded node
recurses through its state and refreshes its evaluation, depth and counts
on survival; an Unexpanded node either generates children (when next and
hold pieces are resolved) or speculates; the invariant-violation assert
of the source (neither hold nor next piece known) is modelled as none. -/
def Tree.expand : Nat → List Nat → Tree → Options → Evaluator →
    Option (Tree × ExpandResult × List Nat)
  | 0, _, _, _, _ => none
  | fuel + 1, rng, t, opts, ev =>
      match t.kind with
      | some tk =>
          match TreeKind.expand fuel rng tk opts ev with
          | none => none
          | some (tk2, er, rng2) =>
              if er.is_death then
                some (Tree.mk t.board t.raw_eval t.evaluation t.depth
                        t.child_nodes (some tk2), er, rng2)
              else
                match tk2.evaluation with
                | none => none
                | some e =>
                    let so := ev.search_options
                    let ne := ((e.mulInt so.gamma.fst).divInt
                      so.gamma.snd).add t.raw_eval
                    some (Tree.mk t.board t.raw_eval ne
                            (max t.depth er.depth)
                            (t.child_nodes + er.new_nodes) (some tk2),
                          er, rng2)
      | none =>
          match t.board.get_next_piece with
          | .ok _ =>
              if opts.use_hold = true ∧ t.board.hold_piece = none ∧
                 t.board.get_next_next_piece = none then
                Tree.speculate fuel rng t opts ev
              else
                match new_children fuel t.board opts ev with
                | none => none
                | some children =>
                    if children.isEmpty then
                      some (t, { depth := 0, new_nodes := 0,
                                 is_death := true }, rng)
                    else
                      let tk := TreeKind.known children
                      match tk.evaluation with
                      | none => none
                      | some e =>
                          let so := ev.search_options
                          let ne := ((e.mulInt so.gamma.fst).divInt
                            so.gamma.snd).add t.raw_eval
                          some (Tree.mk t.board t.raw_eval ne 1
                                  children.length (some tk),
                                { depth := 1, new_nodes := children.length,
                                  is_death := false }, rng)
          | .error _ =>
              if opts.use_hold = true ∧ t.board.hold_piece ≠ none then
                Tree.speculate fuel rng t opts ev
              else none
  termination_by fuel rng t opts ev => (fuel, 0, 0)
end

/-- Tree::extend: one iteration; reports whether only death is possible. -/
def Tree.extend (fuel : Nat) (rng : List Nat) (t : Tree) (opts : Options)
    (ev : Evaluator) : Option Bool :=
  match Tree.expand fuel rng t opts ev with
  | none => none
  | some (_, er, _) => some er.is_death

/-! ## Concrete instances used by counterexamples and witnesses -/

/-- An empty board with an empty queue. -/
def emptyBoardT : Board :=
  { grid := emptyGrid, queue := [], hold := none, bag := [],
    b2b := false, combo := none }

/-- The spawn pose of the T piece on the empty board (Row19Or20). -/
def tSpawn : FallingPiece :=
  { kind := { piece := Piece.T, rot := RotationState.North },
    x := 4, y := 19, tspin := TspinStatus.None }

/-- The lock key of the T piece resting South at column 2 on the floor. -/
def key1 : LockKey := ([(1, 1), (2, 0), (2, 1), (3, 1)], TspinStatus.None)

/-- An empty board whose queue reveals a single O piece. -/
def oBoard : Board :=
  { grid := emptyGrid, queue := [Piece.O], hold := none, bag := [],
    b2b := false, combo := none }

/-- An evaluator scoring every lock at (100, 100), with discount 1/2. -/
def constEvaluator : Evaluator :=
  { evaluate := fun _ _ _ _ => { aggressive := 100, defensive := 100 },
    search_options := { gamma := (1, 2) },
    value := fun _ _ _ => 0 }

/-- Hard-drop-only options without hold or speculation. -/
def hdOpts : Options :=
  { mode := MovementMode.HardDropOnly, use_hold := false,
    spec_enabled := false }

/-- A T piece resting South with cells on rows 23 and 24 (its lowest
occupied cell exactly at row index 23). -/
def c6piece : FallingPiece :=
  { kind := { piece := Piece.T, rot := RotationState.South },
    x := 2, y := 24, tspin := TspinStatus.None }

/-- The aggressive components of a Known node's children, if Known. -/
def childrenEvalAggs (t : Tree) : Option (List Int) :=
  match t.kind with
  | some (TreeKind.known cs) =>
      some (cs.map (fun c => c.tree.evaluation.aggressive))
  | _ => none

/-! ## Claim C10 -/

/-- Claim C10: serializing any Controller to the bit-packed 16-bit wire
form and deserializing the result yields the original Controller (each of
the nine button flags occupies its own bit, so the mapping is lossless),
and the wire value fits in 16 bits. -/
theorem controller_roundtrip (c : Controller) :
    Controller.deserialize (Controller.serialize c) = c ∧
    Controller.serialize c < 65536 := by
  obtain ⟨l, r, rr, rl, r180, mf, sd, hd, ho⟩ := c
  cases l <;> cases r <;> cases rr <;> cases rl <;> cases r180 <;>
    cases mf <;> cases sd <;> cases hd <;> cases ho <;> decide

/-! ## Claim C6 -/

/-- Claim C6 is false as stated: this rest state (T piece, South, cells
on rows 23 and 24) has a cell at or below row index 23, yet lock_check
discards it, because the code discards whenever every cell is at row 23
or above (strictly below 23 is required to record). -/
theorem lock_check_row23_counterexample :
    (∃ c ∈ c6piece.cells, c.2 ≤ 23) ∧
    lock_check c6piece [] { movements := [], time := 0 } = [] := by
  decide

/-- A rest state with no cell strictly below row 23 is discarded by
lock_check. -/
lemma lock_check_all_above (piece : FallingPiece)
    (locks : List (LockKey × Placement)) (moves : InputList)
    (hno : ¬∃ c ∈ piece.cells, c.2 < 23) :
    lock_check piece locks moves = locks := by
  unfold lock_check
  rw [if_pos]
  rw [List.all_eq_true]
  intro c hc
  simp only [decide_eq_true_eq]
  by_contra hlt
  exact hno ⟨c, hc, by omega⟩

/-- A rest state with a cell strictly below row 23 whose key is fresh is
recorded by lock_check. -/
lemma lock_check_records (piece : FallingPiece)
    (locks : List (LockKey × Placement)) (moves : InputList)
    (hex : ∃ c ∈ piece.cells, c.2 < 23)
    (hfind : locksFind (sortCells piece.cells, piece.tspin) locks = none) :
    lock_check piece locks moves =
      locks ++ [((sortCells piece.cells, piece.tspin),
                 { inputs := moves, location := piece })] := by
  unfold lock_check
  rw [if_neg]
  · show (match locksFind (sortCells piece.cells, piece.tspin) locks with
          | some _ => locks
          | none => locks ++ [((sortCells piece.cells, piece.tspin),
              ({ inputs := moves, location := piece } : Placement))]) = _
    rw [hfind]
  · intro hall
    rw [List.all_eq_true] at hall
    obtain ⟨c, hc, hlt⟩ := hex
    have := hall c hc
    simp only [decide_eq_true_eq] at this
    omega

/-- Every entry of a lock map extended by lock_check is an old entry or
records the new piece, which then has a cell strictly below row 23. -/
lemma lock_check_mem (piece : FallingPiece)
    (locks : List (LockKey × Placement)) (moves : InputList) :
    ∀ e ∈ lock_check piece locks moves,
      e ∈ locks ∨ (e.2.location = piece ∧ ∃ c ∈ piece.cells, c.2 < 23) := by
  intro e he
  unfold lock_check at he
  by_cases hall : piece.cells.all (fun c => decide (23 ≤ c.2)) = true
  · rw [if_pos hall] at he
    exact Or.inl he
  · rw [if_neg hall] at he
    revert he
    show e ∈ (match locksFind (sortCells piece.cells, piece.tspin) locks with
          | some _ => locks
          | none => locks ++ [((sortCells piece.cells, piece.tspin),
              ({ inputs := moves, location := piece } : Placement))]) → _
    rcases hf : locksFind (sortCells piece.cells, piece.tspin) locks with _ | v
    · intro he
      rcases List.mem_append.mp he with h1 | h2
      · exact Or.inl h1
      · rcases List.mem_singleton.mp h2 with rfl
        refine Or.inr ⟨rfl, ?_⟩
        rw [List.all_eq_true] at hall
        push_neg at hall
        obtain ⟨c, hc, hlt⟩ := hall
        simp at hlt
        exact ⟨c, hc, by omega⟩
    · intro he
      exact Or.inl he

/-- Every entry the find_moves loop accumulates rests with a cell
strictly below row 23, given the invariant on the incoming map. -/
lemma findMovesLoop_below23 (b : Board) (mode : MovementMode) :
    ∀ (fuel : Nat) (queue : List Placement) (checked : List FallingPiece)
      (locks : List (LockKey × Placement)),
      (∀ e ∈ locks, ∃ c ∈ e.2.location.cells, c.2 < 23) →
      ∀ e ∈ findMovesLoop b mode fuel queue checked locks,
        ∃ c ∈ e.2.location.cells, c.2 < 23 := by
  intro fuel
  induction fuel with
  | zero =>
      intro queue checked locks hinv e he
      exact hinv e he
  | succ n ih =>
      intro queue checked locks hinv e he
      unfold findMovesLoop at he
      rcases hn : next queue with _ | ⟨placement, rest⟩
      · rw [hn] at he
        exact hinv e he
      · rw [hn] at he
        refine ih _ _ _ ?_ e he
        intro e2 he2
        rcases lock_check_mem _ _ _ e2 he2 with h1 | ⟨heq, hex⟩
        · exact hinv e2 h1
        · rw [heq]
          exact hex

/-- Claim C6 amended: a sonic-dropped rest state is recorded if and only
if at least one occupied cell lies strictly below row index 23; a state
whose cells all lie at row 23 or above is discarded, and consequently
every placement in the set returned by find_moves has a cell strictly
below row 23. -/
theorem lock_check_strictly_below_23 :
    (∀ (piece : FallingPiece) (locks : List (LockKey × Placement))
       (moves : InputList), (¬∃ c ∈ piece.cells, c.2 < 23) →
       lock_check piece locks moves = locks) ∧
    (∀ (piece : FallingPiece) (locks : List (LockKey × Placement))
       (moves : InputList), (∃ c ∈ piece.cells, c.2 < 23) →
       locksFind (sortCells piece.cells, piece.tspin) locks = none →
       lock_check piece locks moves =
         locks ++ [((sortCells piece.cells, piece.tspin),
                    { inputs := moves, location := piece })]) ∧
    (∀ (fuel : Nat) (b : Board) (sp : FallingPiece) (mode : MovementMode),
       ∀ pl ∈ find_moves fuel b sp mode,
         ∃ c ∈ pl.location.cells, c.2 < 23) := by
  refine ⟨lock_check_all_above, lock_check_records, ?_⟩
  intro fuel b sp mode pl hpl
  unfold find_moves at hpl
  obtain ⟨e, he, rfl⟩ := List.mem_map.mp hpl
  exact findMovesLoop_below23 b mode fuel _ _ [] (by intro e h; cases h) e he

/-- Witness for the amended claim C6, at the concrete rest state of the
counterexample: lock_check discards it on the empty map. -/
theorem lock_check_strictly_below_23_witness :
    lock_check c6piece [] { movements := [], time := 0 } = [] :=
  lock_check_strictly_below_23.1 c6piece [] { movements := [], time := 0 }
    (by decide)

/-! ## Claim C7 -/

/-- Claim C7: into_best_child succeeds if and only if the root's
expansion state is Known with a non-empty child list, in which case it
returns that list's first child; in every other case it returns an error
carrying the tree with its root state unchanged. -/
theorem into_best_child_spec (t : Tree) :
    (∀ c, t.into_best_child = Except.ok c ↔
       ∃ cs, t.kind = some (TreeKind.known (c :: cs))) ∧
    (∀ t2, t.into_best_child = Except.error t2 → t2 = t) := by
  rcases t with ⟨b, r, e, d, n, k⟩
  rcases k with _ | tk
  · constructor
    · intro c
      simp [Tree.into_best_child, Tree.kind]
    · intro t2 h
      simp only [Tree.into_best_child, Tree.kind] at h
      cases h
      rfl
  · rcases tk with cs | s
    · rcases cs with _ | ⟨c0, rest⟩
      · constructor
        · intro c
          simp [Tree.into_best_child, Tree.kind, TreeKind.into_best_child]
        · intro t2 h
          simp only [Tree.into_best_child, Tree.kind,
            TreeKind.into_best_child] at h
          cases h
          rfl
      · constructor
        · intro c
          constructor
          · intro h
            simp only [Tree.into_best_child, Tree.kind,
              TreeKind.into_best_child] at h
            cases h
            exact ⟨rest, rfl⟩
          · rintro ⟨cs2, hk⟩
            simp only [Tree.kind, Option.some_inj] at hk
            cases hk
            rfl
        · intro t2 h
          simp only [Tree.into_best_child, Tree.kind,
            TreeKind.into_best_child] at h
          cases h
    · constructor
      · intro c
        simp [Tree.into_best_child, Tree.kind, TreeKind.into_best_child]
      · intro t2 h
        simp only [Tree.into_best_child, Tree.kind,
          TreeKind.into_best_child] at h
        cases h
        rfl

/-- Witness for claim C7 at a concrete Known root with one child: the
first child is extracted. -/
theorem into_best_child_spec_witness :
    Tree.into_best_child (Tree.mk emptyBoardT
        { aggressive := 0, defensive := 0 } { aggressive := 0, defensive := 0 }
        0 0 (some (TreeKind.known [dummyChild]))) = Except.ok dummyChild :=
  ((into_best_child_spec _).1 dummyChild).mpr ⟨[], rfl⟩

/-! ## Claim C8 -/


/-- The kick loop of rotate accepts exactly the first kick offset whose
pose is unobstructed (stated through List.find?), fails identically
otherwise, and sets the T-spin flag by the immobility test. -/
lemma rotateAux_find (b : Board) (initial : FallingPiece)
    (target : PieceState) :
    ∀ kicks : List (Int × Int),
      (kicks.find? (fun k => !(b.obstructed (kickPose initial target k))) =
          none → rotateAux b initial target kicks = (false, initial)) ∧
      (∀ k, kicks.find?
          (fun k => !(b.obstructed (kickPose initial target k))) = some k →
        rotateAux b initial target kicks =
          (true, { kickPose initial target k with tspin :=
            (if immobile b (kickPose initial target k) then TspinStatus.Full
             else TspinStatus.None) })) := by
  intro kicks
  induction kicks with
  | nil =>
      constructor
      · intro _
        rfl
      · intro k h
        simp [List.find?] at h
  | cons k0 rest ih =>
      by_cases hob : b.obstructed (kickPose initial target k0) = true
      · have hpred : (fun k => !(b.obstructed (kickPose initial target k)))
            k0 = false := by simp [hob]
        constructor
        · intro h
          rw [List.find?_cons_of_neg _ (by simp [hob])] at h
          show (if (b.obstructed (kickPose initial target k0)) then
            rotateAux b initial target rest else _) = _
          rw [if_pos hob]
          exact ih.1 h
        · intro k h
          rw [List.find?_cons_of_neg _ (by simp [hob])] at h
          show (if (b.obstructed (kickPose initial target k0)) then
            rotateAux b initial target rest else _) = _
          rw [if_pos hob]
          exact ih.2 k h
      · have hob2 : b.obstructed (kickPose initial target k0) = false := by
          revert hob
          cases b.obstructed (kickPose initial target k0) <;> simp
        constructor
        · intro h
          rw [List.find?_cons_of_pos _ (by simp [hob2])] at h
          cases h
        · intro k h
          rw [List.find?_cons_of_pos _ (by simp [hob2])] at h
          cases h
          show (if (b.obstructed (kickPose initial target k0)) then
            rotateAux b initial target rest else _) = _
          rw [if_neg hob]

/-- The behavior claim C8 ascribes to one rotation operation. -/
def RotateBehavior (kicks : List (Int × Int))
    (targetOf : PieceState → PieceState)
    (rot : FallingPiece → Board → Bool × FallingPiece) : Prop :=
  ∀ (b : Board) (p : FallingPiece),
    (kicks.find? (fun k => !(b.obstructed (kickPose p (targetOf p.kind) k)))
        = none → rot p b = (false, p)) ∧
    (∀ k, kicks.find?
        (fun k => !(b.obstructed (kickPose p (targetOf p.kind) k))) = some k →
      rot p b = (true, { kickPose p (targetOf p.kind) k with tspin :=
        (if immobile b (kickPose p (targetOf p.kind) k) then TspinStatus.Full
         else TspinStatus.None) }))

/-- Claim C8: each rotation operation (cw, ccw, flip) tries its fixed
ordered list of 22 kick offsets and accepts the first offset whose
resulting pose is unobstructed; on acceptance the T-spin flag is Full if
and only if none of the four cardinal single-cell shifts from the
accepted pose succeed (otherwise it is cleared to None); if every kick is
obstructed, the piece is left exactly as it was and false is returned. -/
theorem rotate_first_unobstructed_kick :
    kicksCw.length = 22 ∧ kicksCcw.length = 22 ∧ kicksFlip.length = 22 ∧
    RotateBehavior kicksCw (fun s => { s with rot := s.rot.cw })
      FallingPiece.cw ∧
    RotateBehavior kicksCcw (fun s => { s with rot := s.rot.ccw })
      FallingPiece.ccw ∧
    RotateBehavior kicksFlip (fun s => { s with rot := s.rot.flip })
      FallingPiece.flip := by
  refine ⟨rfl, rfl, rfl, ?_, ?_, ?_⟩ <;>
    exact fun b p => rotateAux_find b p _ _

/-- Witness for claim C8: the clockwise rotation of the T piece at spawn
on the empty board accepts the first kick (0,0). -/
theorem rotate_first_unobstructed_kick_witness :
    FallingPiece.cw tSpawn emptyBoardT =
      (true, { kickPose tSpawn { tSpawn.kind with rot := tSpawn.kind.rot.cw }
          (0, 0) with
        tspin := (if immobile emptyBoardT (kickPose tSpawn
            { tSpawn.kind with rot := tSpawn.kind.rot.cw } (0, 0))
          then TspinStatus.Full else TspinStatus.None) }) :=
  (rotate_first_unobstructed_kick.2.2.2.1 emptyBoardT tSpawn).2 (0, 0)
    (by decide)

/-! ## Claim C4 -/

/-- Claim C4: for every Speculative node and every piece identity p that
was speculated, add_next_piece(p) replaces the node with a Known node
whose children are exactly p's precomputed child list, unchanged in
content and order, and the call reports death if and only if that list is
empty. -/
theorem add_next_piece_speculative (fuel : Nat)
    (speculation : Piece → Option (List Child)) (p : Piece)
    (opts : SearchOptions) (cs : List Child)
    (h : speculation p = some cs) :
    TreeKind.add_next_piece (fuel + 1) (TreeKind.unknown speculation) p opts =
      some (TreeKind.known cs, cs.isEmpty) ∧
    (cs.isEmpty = true ↔ cs = []) := by
  constructor
  · simp only [TreeKind.add_next_piece, h]
  · exact List.isEmpty_iff

/-- A speculation map with a single speculated identity. -/
def specOne : Piece → Option (List Child) := fun q =>
  if q = Piece.T then some [dummyChild] else none

/-- Witness for claim C4 at a concrete speculation map: revealing the T
piece yields the Known node over its one-child list without death. -/
theorem add_next_piece_speculative_witness :
    TreeKind.add_next_piece 1 (TreeKind.unknown specOne) Piece.T
        { gamma := (1, 2) } = some (TreeKind.known [dummyChild], false) :=
  (add_next_piece_speculative 0 specOne Piece.T { gamma := (1, 2) }
    [dummyChild] rfl).1

/-! ## Claim C3 -/

/-- Claim-side: the live identities' componentwise-max child evaluations,
in identity order (an identity is live when its speculated child list is
non-empty). -/
def liveBest (speculation : Piece → Option (List Child)) : List Eval :=
  piece_list.filterMap (fun p => (speculation p).bind best_eval)

/-- Claim-side: whether an identity is dead (speculated with no legal
placement). -/
def deadPred (speculation : Piece → Option (List Child)) (p : Piece) : Bool :=
  match speculation p with
  | some [] => true
  | _ => false

/-- Claim-side: the number of dead identities. -/
def deadCount (speculation : Piece → Option (List Child)) : Nat :=
  (piece_list.filter (deadPred speculation)).length

/-- Componentwise sum of a list of evaluations. -/
def evalSum (l : List Eval) : Eval :=
  l.foldl Eval.add { aggressive := 0, defensive := 0 }

lemma Eval.add_zero_right (a : Eval) :
    a.add { aggressive := 0, defensive := 0 } = a := by
  cases a
  simp [Eval.add]

lemma Eval.add_zero_left (a : Eval) :
    Eval.add { aggressive := 0, defensive := 0 } a = a := by
  cases a
  simp [Eval.add]

lemma Eval.add_assoc2 (a b c : Eval) :
    (a.add b).add c = a.add (b.add c) := by
  cases a; cases b; cases c
  simp only [Eval.add, Eval.mk.injEq]
  omega

lemma foldl_eval_shift (l : List Eval) :
    ∀ a b : Eval, l.foldl Eval.add (a.add b) = a.add (l.foldl Eval.add b) := by
  induction l with
  | nil => intro a b; rfl
  | cons c l ih =>
      intro a b
      simp only [List.foldl_cons]
      rw [Eval.add_assoc2, ih]

lemma foldl_eval_add (l : List Eval) (a : Eval) :
    l.foldl Eval.add a = a.add (evalSum l) := by
  have h := foldl_eval_shift l a { aggressive := 0, defensive := 0 }
  rw [Eval.add_zero_right] at h
  exact h

lemma evalSum_cons (v : Eval) (l : List Eval) :
    evalSum (v :: l) = v.add (evalSum l) := by
  show List.foldl Eval.add
    (Eval.add { aggressive := 0, defensive := 0 } v) l = _
  rw [Eval.add_zero_left, foldl_eval_add]

lemma best_eval_eq_none (cs : List Child) : best_eval cs = none ↔ cs = [] := by
  cases cs <;> simp [best_eval]

/-- The accumulation loop of TreeKind::evaluation computes the live sum,
the live count and the dead count. -/
lemma spec_fold (speculation : Piece → Option (List Child)) :
    ∀ (ps : List Piece) (a : Eval) (n d : Int),
      ps.foldl (specStep speculation) (a, n, d) =
        (a.add (evalSum
          (ps.filterMap (fun p => (speculation p).bind best_eval))),
         n + ((ps.filterMap
           (fun p => (speculation p).bind best_eval)).length : Int),
         d + ((ps.filter (deadPred speculation)).length : Int)) := by
  intro ps
  induction ps with
  | nil =>
      intro a n d
      simp [evalSum, Eval.add_zero_right]
  | cons p ps ih =>
      intro a n d
      simp only [List.foldl_cons]
      rcases hsp : speculation p with _ | cs
      · have hstep : specStep speculation (a, n, d) p = (a, n, d) := by
          simp [specStep, hsp]
        have hfa : (fun q => (speculation q).bind best_eval) p = none := by
          simp [hsp]
        have hdp : deadPred speculation p = false := by
          simp [deadPred, hsp]
        rw [hstep, ih a n d,
          @List.filterMap_cons_none _ _
            (fun q => (speculation q).bind best_eval) p ps hfa,
          @List.filter_cons_of_neg _ (deadPred speculation) p ps
            (by simp [hdp])]
      · rcases hbe : best_eval cs with _ | v
        · have hcs : cs = [] := (best_eval_eq_none cs).mp hbe
          have hstep : specStep speculation (a, n, d) p = (a, n, d + 1) := by
            simp [specStep, hsp, hbe]
          have hfa : (fun q => (speculation q).bind best_eval) p = none := by
            simp [hsp, hbe]
          have hdp : deadPred speculation p = true := by
            subst hcs
            simp [deadPred, hsp]
          rw [hstep, ih a n (d + 1),
            @List.filterMap_cons_none _ _
              (fun q => (speculation q).bind best_eval) p ps hfa,
            @List.filter_cons_of_pos _ (deadPred speculation) p ps
              (by simp [hdp])]
          simp only [List.length_cons, Prod.mk.injEq, true_and]
          push_cast
          omega
        · have hstep : specStep speculation (a, n, d) p =
              (a.add v, n + 1, d) := by
            simp [specStep, hsp, hbe]
          have hfa : (fun q => (speculation q).bind best_eval) p = some v := by
            simp [hsp, hbe]
          have hdp : deadPred speculation p = false := by
            simp only [deadPred, hsp]
            rcases cs with _ | ⟨c0, rest⟩
            · simp [best_eval] at hbe
            · rfl
          rw [hstep, ih (a.add v) (n + 1) d,
            @List.filterMap_cons_some _ _
              (fun q => (speculation q).bind best_eval) p ps v hfa,
            @List.filter_cons_of_neg _ (deadPred speculation) p ps
              (by simp [hdp])]
          rw [evalSum_cons, ← Eval.add_assoc2]
          simp only [List.length_cons, Prod.mk.injEq, true_and, and_true]
          push_cast
          omega

/-- Claim C3: for every Speculative node with at least one live piece
identity, the node's aggregate evaluation equals, on each axis
independently, the sum over live identities of the componentwise-max
child evaluation, plus (average_of_live − 1000) for each dead identity,
divided by the count of live plus dead identities (all divisions are the
source's truncating integer divisions). -/
theorem speculative_node_evaluation
    (speculation : Piece → Option (List Child))
    (h : liveBest speculation ≠ []) :
    TreeKind.evaluation (TreeKind.unknown speculation) =
      some { aggressive :=
               ((evalSum (liveBest speculation)).aggressive +
                ((evalSum (liveBest speculation)).aggressive.tdiv
                   ((liveBest speculation).length : Int) - 1000) *
                (deadCount speculation : Int)).tdiv
                 (((liveBest speculation).length : Int) +
                  (deadCount speculation : Int)),
             defensive :=
               ((evalSum (liveBest speculation)).defensive +
                ((evalSum (liveBest speculation)).defensive.tdiv
                   ((liveBest speculation).length : Int) - 1000) *
                (deadCount speculation : Int)).tdiv
                 (((liveBest speculation).length : Int) +
                  (deadCount speculation : Int)) } := by
  have hacc : piece_list.foldl (specStep speculation)
      ({ aggressive := 0, defensive := 0 }, 0, 0) =
      (evalSum (liveBest speculation),
       ((liveBest speculation).length : Int),
       ((deadCount speculation) : Int)) := by
    rw [spec_fold speculation piece_list { aggressive := 0, defensive := 0 }
      0 0, Eval.add_zero_left]
    simp [liveBest, deadCount]
  have hl : ((liveBest speculation).length : Int) ≠ 0 := by
    simp only [ne_eq, Nat.cast_eq_zero, List.length_eq_zero]
    exact h
  simp only [TreeKind.evaluation]
  rw [hacc]
  simp only []
  rw [if_neg hl]
  simp [Eval.divInt]


/-- A speculation map with one live identity (best evaluation (0, 0)) and
one dead identity. -/
def specTwo : Piece → Option (List Child) := fun q =>
  if q = Piece.T then some [dummyChild]
  else if q = Piece.O then some [] else none

/-- Witness for claim C3: one live identity at (0, 0) and one dead
identity average to ((0 + (0 − 1000) · 1) tdiv 2) = −500 per axis. -/
theorem speculative_node_evaluation_witness :
    TreeKind.evaluation (TreeKind.unknown specTwo) =
      some { aggressive := -500, defensive := -500 } := by
  rw [speculative_node_evaluation specTwo (by decide)]
  decide


/-! ## Claim C5 -/


/-- Claim C5 is false as stated: this Known node is reachable (one
expand call from a starting board whose queue reveals an O piece, with a
constant (100, 100) evaluator and discount gamma = 1/2), its stored
evaluation is (50, 50), yet every one of its nine children evaluates to
(100, 100) — the node's evaluation is the DISCOUNTED child maximum plus
its raw evaluation, not a componentwise upper bound of the children. -/
theorem known_eval_counterexample :
    ((Tree.expand (63 + 1) [] (Tree.starting_board oBoard) hdOpts
        constEvaluator).map
      (fun r => (r.1.evaluation.aggressive, childrenEvalAggs r.1))) =
      some (50, some (List.replicate 9 100)) ∧ (50 : Int) < 100 := by
  constructor
  · simp only [Tree.expand]
    decide
  · decide

/-- The max-fold of best_eval dominates its initial accumulator. -/
lemma bestFold_ge_init (rest : List Child) :
    ∀ a : Eval,
      a.aggressive ≤ (rest.foldl (fun acc ch =>
        { aggressive := max acc.aggressive ch.tree.evaluation.aggressive,
          defensive := max acc.defensive ch.tree.evaluation.defensive })
          a).aggressive ∧
      a.defensive ≤ (rest.foldl (fun acc ch =>
        { aggressive := max acc.aggressive ch.tree.evaluation.aggressive,
          defensive := max acc.defensive ch.tree.evaluation.defensive })
          a).defensive := by
  induction rest with
  | nil => intro a; exact ⟨le_refl _, le_refl _⟩
  | cons ch rest ih =>
      intro a
      simp only [List.foldl_cons]
      have h := ih { aggressive := max a.aggressive ch.tree.evaluation.aggressive,
                     defensive := max a.defensive ch.tree.evaluation.defensive }
      exact ⟨le_trans (le_max_left _ _) h.1, le_trans (le_max_left _ _) h.2⟩

/-- The max-fold of best_eval dominates every folded child. -/
lemma bestFold_ge_mem (rest : List Child) :
    ∀ (a : Eval) (c : Child), c ∈ rest →
      c.tree.evaluation.aggressive ≤ (rest.foldl (fun acc ch =>
        { aggressive := max acc.aggressive ch.tree.evaluation.aggressive,
          defensive := max acc.defensive ch.tree.evaluation.defensive })
          a).aggressive ∧
      c.tree.evaluation.defensive ≤ (rest.foldl (fun acc ch =>
        { aggressive := max acc.aggressive ch.tree.evaluation.aggressive,
          defensive := max acc.defensive ch.tree.evaluation.defensive })
          a).defensive := by
  induction rest with
  | nil => intro a c hc; cases hc
  | cons ch rest ih =>
      intro a c hc
      simp only [List.foldl_cons]
      cases hc with
      | head =>
          exact ⟨le_trans (le_max_right _ _) (bestFold_ge_init rest _).1,
                 le_trans (le_max_right _ _) (bestFold_ge_init rest _).2⟩
      | tail _ hc => exact ih _ _ hc

/-- Claim C5 amended: for every tree node in the Known state, each
component of the node's aggregate child evaluation (TreeKind::evaluation,
i.e. best_eval, the componentwise max) is greater than or equal to the
corresponding component of every child's evaluation; the node's stored
evaluation field instead blends this aggregate with the discount and the
raw evaluation and can be smaller. -/
theorem best_eval_ge_children (children : List Child) (e : Eval) (c : Child)
    (h1 : best_eval children = some e) (h2 : c ∈ children) :
    c.tree.evaluation.aggressive ≤ e.aggressive ∧
    c.tree.evaluation.defensive ≤ e.defensive := by
  rcases children with _ | ⟨c0, rest⟩
  · cases h1
  · simp only [best_eval, Option.some_inj] at h1
    subst h1
    cases h2 with
    | head => exact bestFold_ge_init rest _
    | tail _ h2 => exact bestFold_ge_mem rest _ _ h2

/-- Witness for the amended claim C5 at a concrete singleton child list:
its best evaluation (0, 0) dominates the child's evaluation. -/
theorem best_eval_ge_children_witness :
    dummyChild.tree.evaluation.aggressive ≤ (0 : Int) ∧
    dummyChild.tree.evaluation.defensive ≤ (0 : Int) :=
  best_eval_ge_children [dummyChild] { aggressive := 0, defensive := 0 }
    dummyChild rfl (List.mem_cons_self _ _)


/-! ## Claim C2 -/

/-- Claim-side: the number of additional cells the DAS variant slides (the
number of further successful applications of the held shift, bounded by
the remaining input-list capacity). -/
def slideCount (b : Board) (input : PieceMovement) :
    Nat → FallingPiece → Nat
  | 0, _ => 0
  | fuel + 1, p =>
      match input.apply p b with
      | (false, _) => 0
      | (true, p2) => slideCount b input fuel p2 + 1

/-- The DAS loop charges exactly 2 ticks per cell slid. -/
lemma repeatLoop_time (b : Board) (input : PieceMovement) :
    ∀ (fuel : Nat) (p : FallingPiece) (ms : List PieceMovement) (t : Nat),
      (repeatLoop b input fuel p ms t).2.2 =
        t + 2 * slideCount b input fuel p := by
  intro fuel
  induction fuel with
  | zero => intro p ms t; rfl
  | succ n ih =>
      intro p ms t
      show (match input.apply p b with
            | (false, _) => (p, ms, t)
            | (true, p2) =>
                repeatLoop b input n p2 (ms ++ [input]) (t + 2)).2.2 = _
      rcases ha : input.apply p b with ⟨ok, p2⟩
      cases ok
      · simp only [slideCount, ha]
        omega
      · simp only [slideCount, ha, ih]
        omega

/-- The enqueue tail of attempt either leaves the queue unchanged or
appends one placement carrying exactly the accumulated time. -/
lemma attemptPush_queue (b : Board) (mode : MovementMode)
    (input : PieceMovement) (checked : List FallingPiece)
    (queue : List Placement) (p2 : FallingPiece)
    (ms2 : List PieceMovement) (t3 : Nat) :
    (attemptPush b mode input checked queue p2 ms2 t3).2 = queue ∨
    ∃ pl, (attemptPush b mode input checked queue p2 ms2 t3).2 =
        queue ++ [pl] ∧ pl.inputs.time = t3 := by
  simp only [attemptPush]
  split_ifs <;>
    first
      | exact Or.inl rfl
      | exact Or.inr ⟨_, rfl, rfl⟩

/-- Lifting the queue characterization through the fast-mode guard. -/
lemma ite_queue_cases {G : Prop} [Decidable G]
    (x : List FallingPiece × List Placement)
    (checked : List FallingPiece) (queue : List Placement)
    (P : Placement → Prop)
    (hx : x.2 = queue ∨ ∃ pl, x.2 = queue ++ [pl] ∧ P pl) :
    (if G then x else (checked, queue)).2 = queue ∨
    ∃ pl, (if G then x else (checked, queue)).2 = queue ++ [pl] ∧ P pl := by
  by_cases hg : G
  · rw [if_pos hg]
    exact hx
  · rw [if_neg hg]
    exact Or.inl rfl

/-- Claim C2: whenever an attempted action mechanically succeeds, the
placement it enqueues (if any) is charged: 2 ticks per cell actually
fallen for a sonic drop; 1 tick for every other action, plus 1 extra tick
if and only if it repeats the immediately preceding recorded action; and,
for the zero-gravity held-direction (DAS) variant, 2 further ticks per
additional cell slid after the first shift.  The side condition hs states
that a successful sonic drop does not immediately follow a recorded sonic
drop, which always holds inside find_moves since a recorded sonic drop
leaves the piece grounded. -/
theorem attempt_cost (b : Board) (moves : InputList) (piece : FallingPiece)
    (checked : List FallingPiece) (queue : List Placement)
    (mode : MovementMode) (fm : Bool) (input : PieceMovement) (rep : Bool)
    (p1 : FallingPiece) (h : input.apply piece b = (true, p1))
    (hs : input = PieceMovement.SonicDrop →
      moves.movements.getLast? ≠ some PieceMovement.SonicDrop) :
    (attempt b moves piece checked queue mode fm input rep).2 = queue ∨
    ∃ pl, (attempt b moves piece checked queue mode fm input rep).2 =
        queue ++ [pl] ∧
      pl.inputs.time = moves.time +
        (if input = PieceMovement.SonicDrop then 2 * (piece.y - p1.y).toNat
         else 1 + (if moves.movements.getLast? = some input then 1 else 0)) +
        (if rep then
          2 * slideCount b input (32 - (moves.movements.length + 1)) p1
         else 0) := by
  have ht3 :
      (if rep then repeatLoop b input
          (32 - (moves.movements ++ [input]).length) p1
          (moves.movements ++ [input])
          (if moves.movements.getLast? = some input then
            (if input = PieceMovement.SonicDrop then
              moves.time + 2 * (piece.y - p1.y).toNat
             else moves.time + 1) + 1
           else
            (if input = PieceMovement.SonicDrop then
              moves.time + 2 * (piece.y - p1.y).toNat
             else moves.time + 1))
        else (p1, moves.movements ++ [input],
          (if moves.movements.getLast? = some input then
            (if input = PieceMovement.SonicDrop then
              moves.time + 2 * (piece.y - p1.y).toNat
             else moves.time + 1) + 1
           else
            (if input = PieceMovement.SonicDrop then
              moves.time + 2 * (piece.y - p1.y).toNat
             else moves.time + 1)))).2.2 =
      moves.time +
        (if input = PieceMovement.SonicDrop then 2 * (piece.y - p1.y).toNat
         else 1 + (if moves.movements.getLast? = some input then 1 else 0)) +
        (if rep then
          2 * slideCount b input (32 - (moves.movements.length + 1)) p1
         else 0) := by
    rw [List.length_append, List.length_singleton]
    by_cases hrep : rep = true
    · rw [if_pos hrep, if_pos hrep, repeatLoop_time]
      by_cases hsd : input = PieceMovement.SonicDrop
      · subst hsd
        rw [if_neg (hs rfl), if_pos rfl, if_pos rfl]
        try omega
      · rw [if_neg hsd, if_neg hsd]
        by_cases hlast : moves.movements.getLast? = some input
        · rw [if_pos hlast, if_pos hlast]
          try omega
        · rw [if_neg hlast, if_neg hlast]
          try omega
    · rw [if_neg hrep, if_neg hrep]
      show (if moves.movements.getLast? = some input then _ else _) = _
      by_cases hsd : input = PieceMovement.SonicDrop
      · subst hsd
        rw [if_neg (hs rfl), if_pos rfl, if_pos rfl]
        try omega
      · rw [if_neg hsd, if_neg hsd]
        by_cases hlast : moves.movements.getLast? = some input
        · rw [if_pos hlast, if_pos hlast]
          try omega
        · rw [if_neg hlast, if_neg hlast]
          try omega
  simp only [attempt, h]
  refine ite_queue_cases _ _ _ _ ?_
  rw [ht3]
  exact attemptPush_queue b mode input checked queue _ _ _


/-- Witness for claim C2: a first leftward tap from spawn on the empty
board costs exactly 1 tick. -/
theorem attempt_cost_witness :
    (attempt emptyBoardT { movements := [], time := 0 } tSpawn [tSpawn] []
        MovementMode.ZeroGComplete false PieceMovement.Left false).2 = [] ∨
    ∃ pl, (attempt emptyBoardT { movements := [], time := 0 } tSpawn [tSpawn]
        [] MovementMode.ZeroGComplete false PieceMovement.Left false).2 =
        [] ++ [pl] ∧
      pl.inputs.time = 0 + (1 + 0) + 0 :=
  attempt_cost emptyBoardT { movements := [], time := 0 } tSpawn [tSpawn] []
    MovementMode.ZeroGComplete false PieceMovement.Left false
    ((PieceMovement.Left.apply tSpawn emptyBoardT).2) rfl (by decide)




/-! ## Claim C9 -/

/-- The child-building fold only ever appends children whose lock result
is not a lock-out. -/
lemma ptc_fold (board : Board) (ev : Evaluator) (next : Piece)
    (useHold : Bool) :
    ∀ (moves : List Placement) (acc : List Child),
      (∀ c ∈ acc, c.lock.locked_out = false) →
      ∀ c ∈ moves.foldl
        (fun acc mv =>
          let r := board.lock_piece mv.location
          if r.2.locked_out then acc
          else acc ++ [Child.mk useHold mv r.2
            (Tree.new r.1 r.2 mv.inputs.time next ev)]) acc,
        c.lock.locked_out = false := by
  intro moves
  induction moves with
  | nil => intro acc hacc c hc; exact hacc c hc
  | cons mv rest ih =>
      intro acc hacc c hc
      simp only [List.foldl_cons] at hc
      refine ih _ ?_ c hc
      intro c2 hc2
      by_cases hlo : (board.lock_piece mv.location).2.locked_out = true
      · rw [if_pos hlo] at hc2
        exact hacc c2 hc2
      · rw [if_neg hlo] at hc2
        rcases List.mem_append.mp hc2 with h1 | h2
        · exact hacc c2 h1
        · rcases List.mem_singleton.mp h2 with rfl
          show (board.lock_piece mv.location).2.locked_out = false
          revert hlo
          cases (board.lock_piece mv.location).2.locked_out <;> simp
  
/-- Every child built from a placement list has locked_out = false. -/
lemma placementsToChildren_not_locked (board : Board) (ev : Evaluator)
    (next : Piece) (useHold : Bool) (moves : List Placement) :
    ∀ c ∈ placementsToChildren board ev next useHold moves,
      c.lock.locked_out = false := by
  intro c hc
  unfold placementsToChildren at hc
  exact ptc_fold board ev next useHold moves [] (by intro c2 h2; cases h2) c hc

/-- Claim C9: new_children never adds a Child whose LockResult has
locked_out set — every Child entry it produces (for the next piece and
for the held piece alike) has locked_out = false, so no reachable tree
ever contains a locked-out Child. -/
theorem new_children_not_locked_out (fuel : Nat) (board : Board)
    (opts : Options) (ev : Evaluator) (cs : List Child)
    (h : new_children fuel board opts ev = some cs) :
    ∀ c ∈ cs, c.lock.locked_out = false := by
  unfold new_children at h
  rcases hq : board.advance_queue with _ | ⟨next, b2⟩
  · simp only [hq] at h
    cases h
  · simp only [hq] at h
    rcases hsp : FallingPiece.spawn next b2 with _ | spawned
    · simp only [hsp] at h
      cases h
      intro c hc
      cases hc
    · simp only [hsp] at h
      by_cases hu : opts.use_hold = true
      · simp only [if_pos hu] at h
        rcases hh : (b2.swap_hold next).1 with _ | hp
        · simp only [hh] at h
          rcases ha2 : (b2.swap_hold next).2.advance_queue with _ | ⟨hold, hb⟩
          · simp only [ha2] at h
            cases h
          · simp only [ha2] at h
            by_cases heq : hold = next
            · simp only [if_pos heq] at h
              cases h
              exact placementsToChildren_not_locked _ _ _ _ _
            · simp only [if_neg heq] at h
              rcases hsp2 : FallingPiece.spawn hold hb with _ | sp2
              · simp only [hsp2] at h
                cases h
                exact placementsToChildren_not_locked _ _ _ _ _
              · simp only [hsp2] at h
                cases h
                intro c hc
                rcases List.mem_append.mp hc with h1 | h2
                · exact placementsToChildren_not_locked _ _ _ _ _ c h1
                · exact placementsToChildren_not_locked _ _ _ _ _ c h2
        · simp only [hh] at h
          by_cases heq : hp = next
          · simp only [if_pos heq] at h
            cases h
            exact placementsToChildren_not_locked _ _ _ _ _
          · simp only [if_neg heq] at h
            rcases hsp2 : FallingPiece.spawn hp (b2.swap_hold next).2
                with _ | sp2
            · simp only [hsp2] at h
              cases h
              exact placementsToChildren_not_locked _ _ _ _ _
            · simp only [hsp2] at h
              cases h
              intro c hc
              rcases List.mem_append.mp hc with h1 | h2
              · exact placementsToChildren_not_locked _ _ _ _ _ c h1
              · exact placementsToChildren_not_locked _ _ _ _ _ c h2
      · simp only [if_neg hu] at h
        cases h
        exact placementsToChildren_not_locked _ _ _ _ _

/-- Witness for claim C9 at the concrete one-O-piece board: the nine
children generated there all carry locked_out = false. -/
theorem new_children_not_locked_out_witness :
    ∃ cs, new_children 64 oBoard hdOpts constEvaluator = some cs ∧
      ∀ c ∈ cs, c.lock.locked_out = false :=
  ⟨_, rfl, new_children_not_locked_out 64 oBoard hdOpts constEvaluator _ rfl⟩




/-! ## Claim C1 -/

/-- locksFind misses a key exactly when no entry carries it. -/
lemma locksFind_none_iff (key : LockKey) :
    ∀ l : List (LockKey × Placement),
      locksFind key l = none ↔ ∀ e ∈ l, e.1 ≠ key := by
  intro l
  induction l with
  | nil => simp [locksFind]
  | cons e rest ih =>
      by_cases he : e.1 = key
      · simp [locksFind, he]
      · simp [locksFind, he, ih]

/-- lock_check preserves distinctness of the lock map's keys (or_insert
only ever adds a key that is absent). -/
lemma lock_check_keys_nodup (piece : FallingPiece) (moves : InputList)
    (l : List (LockKey × Placement)) (h : (l.map Prod.fst).Nodup) :
    ((lock_check piece l moves).map Prod.fst).Nodup := by
  unfold lock_check
  by_cases hall : piece.cells.all (fun c => decide (23 ≤ c.2)) = true
  · rw [if_pos hall]
    exact h
  · rw [if_neg hall]
    rcases hf : locksFind (sortCells piece.cells, piece.tspin) l with _ | v
    · simp only [hf]
      rw [List.map_append, List.nodup_append]
      refine ⟨h, by simp, ?_⟩
      intro a ha hb
      simp only [List.map_cons, List.map_nil, List.mem_singleton] at hb
      obtain ⟨e, he, rfl⟩ := List.mem_map.mp ha
      exact ((locksFind_none_iff _ l).mp hf e he) hb
    · simp only [hf]
      exact h

/-- The find_moves loop keeps the lock map's keys distinct. -/
lemma findMovesLoop_keys_nodup (b : Board) (mode : MovementMode) :
    ∀ (fuel : Nat) (queue : List Placement) (checked : List FallingPiece)
      (locks : List (LockKey × Placement)),
      ((locks.map Prod.fst).Nodup) →
      (((findMovesLoop b mode fuel queue checked locks).map Prod.fst).Nodup)
    := by
  intro fuel
  induction fuel with
  | zero => intro queue checked locks h; exact h
  | succ n ih =>
      intro queue checked locks h
      unfold findMovesLoop
      rcases hn : next queue with _ | ⟨placement, rest⟩
      · exact h
      · exact ih _ _ _ (lock_check_keys_nodup _ _ _ h)

/-- Claim C1: the first half holds — the set returned by find_moves
contains at most one Placement per distinct (sorted footprint, T-spin)
key, for every board, spawn state and mode.  The second half — that the
stored Placement is a cheapest one — fails at a concrete input, contrary
to the in-code comment in lock_check: on the empty board, for the T piece
spawned at (4, 19) in hard-drop-only mode, the returned placement for the
key with sorted footprint (1,1),(2,0),(2,1),(3,1) and no T-spin records
elapsed time 4 with 3 inputs, while the discoverable 3-action sequence
Left, Flip, Left reaches the same key with elapsed time 3 (the search
first reaches the South pose at x = 2 through a repeated Left that pays
the button-repeat penalty, and the visited-state set then blocks the
cheaper path, whose cost depends on the last action — state information
the dedup key does not carry). -/
theorem find_moves_dedup_and_cheapest_failure :
    (∀ (fuel : Nat) (b : Board) (sp : FallingPiece) (mode : MovementMode),
      ((findMovesMap fuel b sp mode).map Prod.fst).Nodup) ∧
    ((locksFind key1 (findMovesMap 64 emptyBoardT tSpawn
        MovementMode.HardDropOnly)).map
          (fun p => (p.inputs.time, p.inputs.movements.length)) =
        some (4, 3) ∧
     seqReach emptyBoardT tSpawn
        [PieceMovement.Left, PieceMovement.Flip, PieceMovement.Left] =
        some (key1, 3, 3) ∧
     (3 : Nat) < 4 ∧
     ([PieceMovement.Left, PieceMovement.Flip,
       PieceMovement.Left].length ≤ 32)) := by
  constructor
  · intro fuel b sp mode
    unfold findMovesMap
    exact findMovesLoop_keys_nodup b mode fuel _ _ [] (by simp)
  · constructor
    · decide
    · constructor
      · decide
      · exact ⟨by omega, by decide⟩

end ColdClear
